import Mathlib

/-!
Shallow embedding of `examples/mxnet/gcn/gcn_spmv.py` (GCN with SPMV
optimization, MXNet/Gluon example) and proofs about it.

Conventions of the embedding:
* a directed graph on `n` nodes is a `List (Fin n × Fin n)` of edges
  `(src, dst)`;
* dense feature matrices are functions `Fin n → ℕ → ℚ` (node index, feature
  index); rational numbers stand for the script's float arithmetic wherever
  no transcendental function intervenes, real numbers (`ℝ`) are used for the
  softmax / log parts, and `ENNReal` models the IEEE behaviour of
  `mx.nd.power(deg, -0.5)`, whose value at `0` is `+inf`;
* the random realization of `mx.nd.Dropout` is an explicit function
  parameter, and the wall-clock durations measured by the training loop are
  an explicit sequence parameter.
-/

namespace GCNSpmv

/-! ### Graph builder: degrees and the normalization coefficient -/

/-- In-degree of node `v`: number of edges whose destination is `v`
(`g.in_degrees()` in the script). -/
def inDeg {n : ℕ} (edges : List (Fin n × Fin n)) (v : Fin n) : ℕ :=
  (edges.filter (fun e => e.2 == v)).length

/-- Out-degree of node `v`: number of edges whose source is `v`. -/
def outDeg {n : ℕ} (edges : List (Fin n × Fin n)) (v : Fin n) : ℕ :=
  (edges.filter (fun e => e.1 == v)).length

/-- A node is isolated when it has no incident edge at all; a graph has no
isolated nodes when every node has an in-edge or an out-edge. -/
def noIsolatedNodes {n : ℕ} (edges : List (Fin n × Fin n)) : Prop :=
  ∀ v : Fin n, inDeg edges v ≠ 0 ∨ outDeg edges v ≠ 0

instance {n : ℕ} (edges : List (Fin n × Fin n)) :
    Decidable (noIsolatedNodes edges) := by
  unfold noIsolatedNodes; infer_instance

/-- `mx.nd.power(deg, -0.5)` on a nonnegative integer degree, with IEEE-754
semantics: `0 ** (-0.5) = +inf`, modelled as `⊤` in `ENNReal`
(`norm = mx.nd.power(degs, -0.5)` in `main`). -/
noncomputable def normCoeff (d : ℕ) : ENNReal :=
  (d : ENNReal) ^ (-(1 : ℝ) / 2)

/-! ### Argument parser: the `--normalization` flag -/

/-- The `choices` list of the `--normalization` CLI flag
(`parser.add_argument("--normalization", choices=['sym','left'], ...)`). -/
def normalizationChoices : List String := ["sym", "left"]

/-- Whether a value passed on the command line as `--normalization VALUE` is
accepted by argparse: it must be one of the registered choices. -/
def acceptsNormalization (s : String) : Bool :=
  normalizationChoices.contains s

/-! ### Concrete instances used below -/

/-- A two-node graph with the single edge `0 → 1`: node `0` has an out-edge
(so it is not isolated) but has in-degree `0`. -/
def sourceOnlyGraph : List (Fin 2 × Fin 2) := [(0, 1)]

/-! ### Claims about the normalization coefficients (C3) -/

/-- C3, counterexample: the graph `0 → 1` has no isolated nodes, yet the
normalization coefficient of node `0` (in-degree `0` raised to the power
`-1/2`) is infinite, refuting the claim that for every graph with no
isolated nodes all normalization coefficients are finite. -/
theorem normCoeff_infinite_on_sourceOnlyGraph :
    noIsolatedNodes sourceOnlyGraph ∧
      normCoeff (inDeg sourceOnlyGraph 0) = ⊤ := by
  constructor
  · decide
  · have h0 : inDeg sourceOnlyGraph 0 = 0 := by decide
    rw [h0]
    unfold normCoeff
    rw [Nat.cast_zero]
    exact ENNReal.zero_rpow_of_neg (by norm_num)

/-- C3, amended: for every graph and every node of nonzero in-degree, the
normalization coefficient `inDeg ^ (-1/2)` is finite and non-negative. -/
theorem normCoeff_finite_of_inDeg_ne_zero {n : ℕ}
    (edges : List (Fin n × Fin n)) (v : Fin n)
    (h : inDeg edges v ≠ 0) :
    normCoeff (inDeg edges v) ≠ ⊤ ∧ 0 ≤ normCoeff (inDeg edges v) := by
  refine ⟨?_, zero_le _⟩
  unfold normCoeff
  rw [Ne, ENNReal.rpow_eq_top_iff]
  push_neg
  refine ⟨fun hz => ?_, fun ht => ?_⟩
  · exact absurd (Nat.cast_eq_zero.mp hz) h
  · exact absurd ht (ENNReal.natCast_ne_top _)

/-- C3, witness for the amended theorem: node `1` of the graph `0 → 1` has
nonzero in-degree and a finite, non-negative normalization coefficient. -/
theorem normCoeff_finite_witness :
    inDeg sourceOnlyGraph 1 ≠ 0 ∧
      (normCoeff (inDeg sourceOnlyGraph 1) ≠ ⊤ ∧
        0 ≤ normCoeff (inDeg sourceOnlyGraph 1)) :=
  ⟨by decide, normCoeff_finite_of_inDeg_ne_zero sourceOnlyGraph 1 (by decide)⟩

/-! ### Claims about the `--normalization` flag (C5) -/

/-- C5, counterexample: the literal value `none` is not among the registered
choices of `--normalization`, so `--normalization none` is rejected by the
argument parser, refuting the claim that the flag accepts the three values
`sym`, `left` and `none`. -/
theorem acceptsNormalization_none_false :
    acceptsNormalization "none" = false := by
  decide

/-- C5, amended: the `--normalization` flag accepts exactly the two values
`sym` and `left`; any other string, including `none`, is rejected. -/
theorem acceptsNormalization_iff (s : String) :
    acceptsNormalization s = true ↔ s = "sym" ∨ s = "left" := by
  unfold acceptsNormalization normalizationChoices
  simp [List.contains]

/-! ### The graph's node-data store and `GCNLayer.forward` -/

/-- The node-data store `g.ndata` as used by the script: a `norm` field set
once in `main` (one scalar per node, stored as an `(n, 1)` column that
broadcasts over feature columns), and a transient `h` field written and
popped inside `GCNLayer.forward`. -/
structure NData (n : ℕ) where
  norm : Fin n → ℚ
  hField : Option (Fin n → ℕ → ℚ)

/-- The message-passing step `update_all(copy_src('h','m'), sum('m','h'))`
acting on a feature matrix: the new row of node `v` is the sum, over all
edges `(u, v)`, of the row of the source node `u`. -/
def updateAllSum {n : ℕ} (edges : List (Fin n × Fin n))
    (h : Fin n → ℕ → ℚ) : Fin n → ℕ → ℚ :=
  fun v j => ((edges.filter (fun e => e.2 == v)).map (fun e => h e.1 j)).sum

/-- `g.update_all(fn.copy_src(src='h', out='m'), fn.sum(msg='m', out='h'))`
on the store: rewrites the `h` field by `updateAllSum`, leaves `norm`
untouched. -/
def NData.updateAll {n : ℕ} (edges : List (Fin n × Fin n))
    (st : NData n) : NData n :=
  { st with hField := st.hField.map (updateAllSum edges) }

/-- The dense layer `gluon.nn.Dense(out_feats, use_bias=True)` applied to a
feature matrix whose rows have width `inF`:
`out v j = (sum over k < inF of W j k * h v k) + b j`. -/
def denseApply {n : ℕ} (inF : ℕ) (W : ℕ → ℕ → ℚ) (b : ℕ → ℚ)
    (h : Fin n → ℕ → ℚ) : Fin n → ℕ → ℚ :=
  fun v j => (∑ k ∈ Finset.range inF, W j k * h v k) + b j

/-- The dropout stage of `GCNLayer.forward`: the script runs
`h = mx.nd.Dropout(h, p=self.dropout)` only when `self.dropout` is truthy
(a nonzero rate); `dropFn` is the random realization of `mx.nd.Dropout`. -/
def dropoutStage {n : ℕ} (rate : ℚ)
    (dropFn : (Fin n → ℕ → ℚ) → Fin n → ℕ → ℚ)
    (h : Fin n → ℕ → ℚ) : Fin n → ℕ → ℚ :=
  if rate = 0 then h else dropFn h

/-- Elementwise application of the optional activation (`None` means the
identity, as in the script's output layer). -/
def applyAct {n : ℕ} (act : Option (ℚ → ℚ))
    (h : Fin n → ℕ → ℚ) : Fin n → ℕ → ℚ :=
  match act with
  | some f => fun v j => f (h v j)
  | none => h

/-- `GCNLayer.forward`, statement by statement: dropout (when the rate is
nonzero), dense transform, multiplication by the stored `norm`, write of the
transient `h` field, `update_all` aggregation, `pop` of the `h` field,
multiplication by `norm` again, optional activation. Returns the final
store and the output features. -/
def GCNLayer.forward {n : ℕ} (edges : List (Fin n × Fin n)) (inF : ℕ)
    (W : ℕ → ℕ → ℚ) (b : ℕ → ℚ) (act : Option (ℚ → ℚ)) (rate : ℚ)
    (dropFn : (Fin n → ℕ → ℚ) → Fin n → ℕ → ℚ)
    (st : NData n) (h : Fin n → ℕ → ℚ) :
    NData n × (Fin n → ℕ → ℚ) :=
  let h1 := dropoutStage rate dropFn h
  let h2 := denseApply inF W b h1
  let h3 := fun (v : Fin n) (j : ℕ) => h2 v j * st.norm v
  let st1 : NData n := { st with hField := some h3 }
  let st2 := st1.updateAll edges
  let h4 := st2.hField.getD (fun _ _ => 0)
  let st3 : NData n := { st2 with hField := none }
  let h5 := fun (v : Fin n) (j : ℕ) => h4 v j * st3.norm v
  (st3, applyAct act h5)

/-! ### Claims about `GCNLayer.forward` (C2, C9) -/

/-- C2: `GCNLayer.forward` computes
`activation(norm * aggregate(norm * dense(dropout(h))))`, in exactly that
order, where the aggregate row of node `v` is the sum over all edges
`(u, v)` of the transformed-and-normalized row of the source `u`; and with
no activation (the output layer) the same expression without the outer
nonlinearity is returned. -/
theorem GCNLayer_forward_spec {n : ℕ} (edges : List (Fin n × Fin n))
    (inF : ℕ) (W : ℕ → ℕ → ℚ) (b : ℕ → ℚ) (act : Option (ℚ → ℚ))
    (rate : ℚ) (dropFn : (Fin n → ℕ → ℚ) → Fin n → ℕ → ℚ)
    (st : NData n) (h : Fin n → ℕ → ℚ) :
    (GCNLayer.forward edges inF W b act rate dropFn st h).2
      = applyAct act (fun v j => st.norm v *
          updateAllSum edges
            (fun u k => st.norm u *
              denseApply inF W b (dropoutStage rate dropFn h) u k) v j) ∧
    (GCNLayer.forward edges inF W b none rate dropFn st h).2
      = fun v j => st.norm v *
          updateAllSum edges
            (fun u k => st.norm u *
              denseApply inF W b (dropoutStage rate dropFn h) u k) v j := by
  have key : ∀ a : Option (ℚ → ℚ),
      (GCNLayer.forward edges inF W b a rate dropFn st h).2
        = applyAct a (fun v j => st.norm v *
            updateAllSum edges
              (fun u k => st.norm u *
                denseApply inF W b (dropoutStage rate dropFn h) u k) v j) := by
    intro a
    unfold GCNLayer.forward NData.updateAll
    simp only [Option.map_some', Option.getD_some]
    have hFG : (fun (v : Fin n) (j : ℕ) =>
        updateAllSum edges
          (fun u k => denseApply inF W b (dropoutStage rate dropFn h) u k *
            st.norm u) v j * st.norm v)
        = (fun (v : Fin n) (j : ℕ) => st.norm v *
            updateAllSum edges
              (fun u k => st.norm u *
                denseApply inF W b (dropoutStage rate dropFn h) u k) v j) := by
      funext v j
      unfold updateAllSum
      simp only [mul_comm]
    exact congrArg (applyAct a) hFG
  exact ⟨key act, key none⟩

/-- C9: `GCNLayer.forward` leaves the node-data store net-unchanged — the
returned store has no `h` field, and its `norm` field is exactly the one it
was given. -/
theorem GCNLayer_forward_frame {n : ℕ} (edges : List (Fin n × Fin n))
    (inF : ℕ) (W : ℕ → ℕ → ℚ) (b : ℕ → ℚ) (act : Option (ℚ → ℚ))
    (rate : ℚ) (dropFn : (Fin n → ℕ → ℚ) → Fin n → ℕ → ℚ)
    (st : NData n) (h : Fin n → ℕ → ℚ) :
    (GCNLayer.forward edges inF W b act rate dropFn st h).1.hField = none ∧
    (GCNLayer.forward edges inF W b act rate dropFn st h).1.norm = st.norm := by
  unfold GCNLayer.forward NData.updateAll
  exact ⟨rfl, rfl⟩

/-! ### `GCN.__init__`: the layer stack (C6, C10) -/

/-- The configuration of one `GCNLayer` as fixed by `GCN.__init__`: input
width, output width, optional activation, dropout rate. -/
structure LayerSpec where
  inF : ℕ
  outF : ℕ
  act : Option (ℚ → ℚ)
  dropout : ℚ

/-- The layer stack built by `GCN.__init__`: one input layer
`in_feats → n_hidden`, then `n_layers - 1` hidden layers
`n_hidden → n_hidden`, then one output layer `n_hidden → n_classes` with
activation `None`. -/
def gcnLayerSpecs (inFeats nHidden nClasses nLayers : ℕ)
    (act : Option (ℚ → ℚ)) (dropout : ℚ) : List LayerSpec :=
  [⟨inFeats, nHidden, act, dropout⟩]
    ++ List.replicate (nLayers - 1) ⟨nHidden, nHidden, act, dropout⟩
    ++ [⟨nHidden, nClasses, none, dropout⟩]

/-- The `GCN` model object: the graph handed to every layer and the layer
stack. -/
structure GCNModel (n : ℕ) where
  edges : List (Fin n × Fin n)
  layers : List LayerSpec

/-- `GCN.__init__`: receives the graph, the widths, the activation, the
dropout rate and the `normalization` argument; the `normalization` argument
is bound but never used. -/
def mkGCN {n : ℕ} (edges : List (Fin n × Fin n))
    (inFeats nHidden nClasses nLayers : ℕ) (act : Option (ℚ → ℚ))
    (dropout : ℚ) (normalization : Option String) : GCNModel n :=
  { edges := edges
    layers := gcnLayerSpecs inFeats nHidden nClasses nLayers act dropout }

/-- `GCN.forward` over a list of layers, threading the node-data store and
using the `i`-th weight matrix, bias and dropout realization for the `i`-th
layer. -/
def gcnForwardAux {n : ℕ} (edges : List (Fin n × Fin n))
    (Ws : ℕ → ℕ → ℕ → ℚ) (bs : ℕ → ℕ → ℚ)
    (drops : ℕ → (Fin n → ℕ → ℚ) → Fin n → ℕ → ℚ) :
    List LayerSpec → ℕ → NData n → (Fin n → ℕ → ℚ) →
      NData n × (Fin n → ℕ → ℚ)
  | [], _, st, h => (st, h)
  | L :: rest, i, st, h =>
      let out := GCNLayer.forward edges L.inF (Ws i) (bs i) L.act
        L.dropout (drops i) st h
      gcnForwardAux edges Ws bs drops rest (i + 1) out.1 out.2

/-- `GCN.forward`: feed the features through the layer chain sequentially. -/
def gcnForward {n : ℕ} (m : GCNModel n) (Ws : ℕ → ℕ → ℕ → ℚ)
    (bs : ℕ → ℕ → ℚ) (drops : ℕ → (Fin n → ℕ → ℚ) → Fin n → ℕ → ℚ)
    (st : NData n) (h : Fin n → ℕ → ℚ) : NData n × (Fin n → ℕ → ℚ) :=
  gcnForwardAux m.edges Ws bs drops m.layers 0 st h

/-- Adjacent layer widths chain: each layer's output width equals the next
layer's input width. -/
def chainOK : List LayerSpec → Bool
  | [] => true
  | [_] => true
  | a :: b :: rest => (a.outF == b.inF) && chainOK (b :: rest)

lemma chainOK_getElem :
    ∀ (l : List LayerSpec), chainOK l = true →
      ∀ i : ℕ, ∀ hi : i + 1 < l.length,
        (l.get ⟨i, Nat.lt_of_succ_lt hi⟩).outF = (l.get ⟨i + 1, hi⟩).inF := by
  intro l
  induction l with
  | nil => intro _ i hi; simp at hi
  | cons a t ih =>
      intro hc i hi
      cases t with
      | nil => simp at hi
      | cons b r =>
          have hc' : ((a.outF == b.inF) && chainOK (b :: r)) = true := hc
          rw [Bool.and_eq_true] at hc'
          cases i with
          | zero =>
              have hab : a.outF = b.inF := eq_of_beq hc'.1
              exact hab
          | succ k =>
              have hk : k + 1 < (b :: r).length := Nat.lt_of_succ_lt_succ hi
              exact ih hc'.2 k hk

lemma chainOK_replicate_tail (nHidden nClasses : ℕ) (act : Option (ℚ → ℚ))
    (dropout : ℚ) :
    ∀ (k : ℕ) (a : LayerSpec), a.outF = nHidden →
      chainOK (a :: (List.replicate k
          (⟨nHidden, nHidden, act, dropout⟩ : LayerSpec)
        ++ [⟨nHidden, nClasses, none, dropout⟩])) = true := by
  intro k
  induction k with
  | zero =>
      intro a ha
      simp only [List.replicate_zero, List.nil_append]
      show ((a.outF == nHidden) &&
        chainOK [⟨nHidden, nClasses, none, dropout⟩]) = true
      rw [Bool.and_eq_true]
      exact ⟨by simp [ha], rfl⟩
  | succ m ih =>
      intro a ha
      simp only [List.replicate_succ, List.cons_append]
      show ((a.outF == nHidden) &&
        chainOK ((⟨nHidden, nHidden, act, dropout⟩ : LayerSpec)
          :: (List.replicate m
              (⟨nHidden, nHidden, act, dropout⟩ : LayerSpec)
            ++ [⟨nHidden, nClasses, none, dropout⟩]))) = true
      rw [Bool.and_eq_true]
      exact ⟨by simp [ha], ih ⟨nHidden, nHidden, act, dropout⟩ rfl⟩

/-- C6: for every layer count `n_layers ≥ 1` the constructed stack has
`n_layers + 1` layers, starts with the `in_feats → n_hidden` input layer,
ends with the `n_hidden → n_classes` output layer whose activation is
`None`, and adjacent widths chain (layer `i`'s output width equals layer
`i+1`'s input width); in particular the last layer's output width is
`n_classes`. -/
theorem gcn_layer_stack_spec (inFeats nHidden nClasses nLayers : ℕ)
    (act : Option (ℚ → ℚ)) (dropout : ℚ) (hl : 1 ≤ nLayers) :
    (gcnLayerSpecs inFeats nHidden nClasses nLayers act dropout).length
        = nLayers + 1 ∧
    (gcnLayerSpecs inFeats nHidden nClasses nLayers act dropout).head?
        = some ⟨inFeats, nHidden, act, dropout⟩ ∧
    (gcnLayerSpecs inFeats nHidden nClasses nLayers act dropout).getLast?
        = some ⟨nHidden, nClasses, none, dropout⟩ ∧
    chainOK (gcnLayerSpecs inFeats nHidden nClasses nLayers act dropout)
        = true ∧
    (∀ i : ℕ, ∀ hi : i + 1 <
        (gcnLayerSpecs inFeats nHidden nClasses nLayers act dropout).length,
      ((gcnLayerSpecs inFeats nHidden nClasses nLayers act dropout).get
          ⟨i, Nat.lt_of_succ_lt hi⟩).outF
        = ((gcnLayerSpecs inFeats nHidden nClasses nLayers act dropout).get
          ⟨i + 1, hi⟩).inF) := by
  have hchain : chainOK
      (gcnLayerSpecs inFeats nHidden nClasses nLayers act dropout) = true := by
    unfold gcnLayerSpecs
    rw [List.cons_append]
    exact chainOK_replicate_tail nHidden nClasses act dropout (nLayers - 1)
      ⟨inFeats, nHidden, act, dropout⟩ rfl
  refine ⟨?_, ?_, ?_, hchain, chainOK_getElem _ hchain⟩
  · unfold gcnLayerSpecs
    simp only [List.length_append, List.length_replicate, List.length_cons,
      List.length_nil]
    omega
  · unfold gcnLayerSpecs
    rfl
  · unfold gcnLayerSpecs
    rw [List.getLast?_append]
    rfl

/-- C6, witness: the stack for `n_layers = 2` (hidden width 3, 4 input
features, 2 classes) satisfies all the properties of the layer-stack
theorem. -/
theorem gcn_layer_stack_witness :
    1 ≤ 2 ∧
    ((gcnLayerSpecs 4 3 2 2 (some id) (1/2)).length = 2 + 1 ∧
    (gcnLayerSpecs 4 3 2 2 (some id) (1/2)).head?
        = some ⟨4, 3, some id, 1/2⟩ ∧
    (gcnLayerSpecs 4 3 2 2 (some id) (1/2)).getLast?
        = some ⟨3, 2, none, 1/2⟩ ∧
    chainOK (gcnLayerSpecs 4 3 2 2 (some id) (1/2)) = true ∧
    (∀ i : ℕ, ∀ hi : i + 1 < (gcnLayerSpecs 4 3 2 2 (some id) (1/2)).length,
      ((gcnLayerSpecs 4 3 2 2 (some id) (1/2)).get
          ⟨i, Nat.lt_of_succ_lt hi⟩).outF
        = ((gcnLayerSpecs 4 3 2 2 (some id) (1/2)).get ⟨i + 1, hi⟩).inF)) :=
  ⟨by norm_num, gcn_layer_stack_spec 4 3 2 2 (some id) (1/2) (by norm_num)⟩

/-- C10: the `normalization` argument never influences the computation —
`GCN.__init__` ignores it, so the constructed models for any two values are
equal, every function of the model (losses, accuracy, ...) takes the same
value on both, and in particular the forward pass output is identical. -/
theorem gcn_normalization_irrelevant {n : ℕ} (edges : List (Fin n × Fin n))
    (inFeats nHidden nClasses nLayers : ℕ) (act : Option (ℚ → ℚ))
    (dropout : ℚ) (norm1 norm2 : Option String) :
    mkGCN edges inFeats nHidden nClasses nLayers act dropout norm1
        = mkGCN edges inFeats nHidden nClasses nLayers act dropout norm2 ∧
    (∀ (α : Type) (f : GCNModel n → α),
      f (mkGCN edges inFeats nHidden nClasses nLayers act dropout norm1)
        = f (mkGCN edges inFeats nHidden nClasses nLayers act dropout norm2)) ∧
    (∀ (Ws : ℕ → ℕ → ℕ → ℚ) (bs : ℕ → ℕ → ℚ)
        (drops : ℕ → (Fin n → ℕ → ℚ) → Fin n → ℕ → ℚ)
        (st : NData n) (h : Fin n → ℕ → ℚ),
      gcnForward (mkGCN edges inFeats nHidden nClasses nLayers act dropout
          norm1) Ws bs drops st h
        = gcnForward (mkGCN edges inFeats nHidden nClasses nLayers act dropout
          norm2) Ws bs drops st h) :=
  ⟨rfl, fun _ _ => rfl, fun _ _ _ _ _ => rfl⟩

/-! ### Training loop logging (C4) -/

/-- One printed epoch log line: epoch number, that epoch's loss, the running
mean of the recorded durations and the throughput derived from it. -/
structure EpochLog where
  epoch : ℕ
  loss : ℚ
  timeMean : ℚ
  tput : ℚ

/-- The training loop's observable logging behaviour over the first
`nEpochs` epochs: starting from an empty `dur` list, each epoch `e ≥ 3`
appends its measured duration `t e` to `dur` and prints one log line with
the epoch number, `loss e`, `np.mean(dur)` and
`n_edges / np.mean(dur) / 1000`; epochs `0`, `1`, `2` print nothing.
Returns the final `dur` list and the list of printed lines. -/
def trainLoopLogs (lossSeq timeSeq : ℕ → ℚ) (nEdges : ℚ) :
    ℕ → List ℚ × List EpochLog
  | 0 => ([], [])
  | e + 1 =>
      let prev := trainLoopLogs lossSeq timeSeq nEdges e
      if 3 ≤ e then
        let dur := prev.1 ++ [timeSeq e]
        let m := dur.sum / (dur.length : ℚ)
        (dur, prev.2 ++ [⟨e, lossSeq e, m, nEdges / m / 1000⟩])
      else
        prev

/-- C4, counterexample: running the loop for `n_epochs = 4` prints a log
line only for epoch `3`; epochs `0`, `1` and `2` of the loop print none,
refuting the claim that every epoch prints a log line. -/
theorem trainLoopLogs_skips_first_epochs :
    ((trainLoopLogs (fun _ => 0) (fun _ => 1) 1 4).2.map
        (fun r => r.epoch) = [3]) ∧
    (∀ r ∈ (trainLoopLogs (fun _ => 0) (fun _ => 1) 1 4).2,
      r.epoch ≠ 0) := by
  constructor
  · rfl
  · decide

/-- C4, amended: a log line with that epoch's loss, elapsed-time mean and
throughput is printed exactly for the epochs `e` with `3 ≤ e < n_epochs`;
the first three epochs print nothing. -/
theorem trainLoopLogs_spec (lossSeq timeSeq : ℕ → ℚ) (nEdges : ℚ)
    (nEpochs e : ℕ) (h3 : 3 ≤ e) (hn : e < nEpochs) :
    ∃ r ∈ (trainLoopLogs lossSeq timeSeq nEdges nEpochs).2,
      r.epoch = e ∧ r.loss = lossSeq e := by
  induction nEpochs with
  | zero => omega
  | succ m ih =>
      by_cases he : e = m
      · subst he
        have h3m : 3 ≤ e := h3
        unfold trainLoopLogs
        rw [if_pos h3m]
        exact ⟨_, List.mem_append_right _ (List.mem_singleton_self _),
          rfl, rfl⟩
      · have hlt : e < m := by omega
        have ⟨r, hr, hre⟩ := ih hlt
        unfold trainLoopLogs
        by_cases h3m : 3 ≤ m
        · rw [if_pos h3m]
          exact ⟨r, List.mem_append_left _ hr, hre⟩
        · rw [if_neg h3m]
          exact ⟨r, hr, hre⟩

/-- C4, witness for the amended theorem: with constant loss `7` and unit
durations, epoch `3` of a `5`-epoch run is logged with its loss. -/
theorem trainLoopLogs_spec_witness :
    3 ≤ 3 ∧ 3 < 5 ∧
    (∃ r ∈ (trainLoopLogs (fun _ => 7) (fun _ => 1) 1 5).2,
      r.epoch = 3 ∧ r.loss = (fun _ => (7 : ℚ)) 3) :=
  ⟨by norm_num, by norm_num,
    trainLoopLogs_spec (fun _ => 7) (fun _ => 1) 1 5 3
      (by norm_num) (by norm_num)⟩

/-! ### Softmax, masked loss and the final accuracy (C1, C7, C8) -/

/-- Row-wise softmax over the class axis (`.softmax()` on an `(n, C)`
array, taken along the last axis). -/
noncomputable def softmaxRow {C : ℕ} (x : Fin C → ℝ) : Fin C → ℝ :=
  fun j => Real.exp (x j) / ∑ k, Real.exp (x k)

/-- The elementwise scaling `pred * 100` of the evaluator. -/
noncomputable def scaleBy100 {n C : ℕ} (pred : Fin n → Fin C → ℝ) :
    Fin n → Fin C → ℝ :=
  fun v j => pred v j * 100

/-- Row-wise softmax of a matrix. -/
noncomputable def softmaxRows {n C : ℕ} (m : Fin n → Fin C → ℝ) :
    Fin n → Fin C → ℝ :=
  fun v => softmaxRow (m v)

/-- `.pick(labels)`: select, in each row, the entry at that row's label. -/
def pickLabels {n C : ℕ} (m : Fin n → Fin C → ℝ)
    (labels : Fin n → Fin C) : Fin n → ℝ :=
  fun v => m v (labels v)

/-- `.mean()` of a vector of length `n`. -/
noncomputable def meanVec {n : ℕ} (x : Fin n → ℝ) : ℝ :=
  (∑ v, x v) / n

/-- The evaluator's accuracy
`(pred*100).softmax().pick(labels).mean()`: the mean, over all nodes, of
the probability that the softmax of the `100`-scaled logits assigns to the
node's true label. The training mask is not consulted. -/
noncomputable def evalAccuracy {n C : ℕ} (pred : Fin n → Fin C → ℝ)
    (labels : Fin n → Fin C) : ℝ :=
  meanVec (pickLabels (softmaxRows (scaleBy100 pred)) labels)

open scoped Classical in
/-- The accuracy as the specification describes it: the fraction of
mask-selected nodes whose argmax-selected class (here: whose true label
strictly dominates every other logit) matches the ground-truth label. -/
noncomputable def specArgmaxAccuracy {n C : ℕ} (pred : Fin n → Fin C → ℝ)
    (labels : Fin n → Fin C) (mask : Fin n → ℝ) : ℝ :=
  (((Finset.univ : Finset (Fin n)).filter
      (fun v => mask v ≠ 0 ∧
        ∀ k, k ≠ labels v → pred v k < pred v (labels v))).card : ℝ)
    / (((Finset.univ : Finset (Fin n)).filter (fun v => mask v ≠ 0)).card : ℝ)

/-- `gluon.loss.SoftmaxCELoss()(pred, labels, mask)`: the per-node loss
`-log softmax(pred_v)[label_v]`, weighted by the node's mask entry. -/
noncomputable def softmaxCELoss {n C : ℕ} (pred : Fin n → Fin C → ℝ)
    (labels : Fin n → Fin C) (mask : Fin n → ℝ) : Fin n → ℝ :=
  fun v => -Real.log (softmaxRow (pred v) (labels v)) * mask v

/-- One node, two classes, the node's logits strictly favouring class `0`,
ground-truth label `0`, node selected by the mask. -/
noncomputable def predEval : Fin 1 → Fin 2 → ℝ :=
  fun _ j => if j = 0 then 1 else 0

def labelsEval : Fin 1 → Fin 2 := fun _ => 0

noncomputable def maskEval : Fin 1 → ℝ := fun _ => 1

lemma softmaxRow_nonneg_le_one {C : ℕ} (x : Fin C → ℝ) (j : Fin C) :
    0 ≤ softmaxRow x j ∧ softmaxRow x j ≤ 1 := by
  have hpos : (0 : ℝ) < ∑ k, Real.exp (x k) :=
    Finset.sum_pos (fun k _ => Real.exp_pos _) ⟨j, Finset.mem_univ j⟩
  unfold softmaxRow
  constructor
  · exact div_nonneg (Real.exp_nonneg _) hpos.le
  · rw [div_le_one hpos]
    exact Finset.single_le_sum (fun k _ => (Real.exp_pos (x k)).le)
      (Finset.mem_univ j)

/-- C1, counterexample: on a one-node graph whose prediction strictly
favours the correct class, the argmax-style masked fraction of the
specification is `1`, while the reported accuracy
`(pred*100).softmax().pick(labels).mean()` is strictly below `1` — the two
computations disagree. -/
theorem evalAccuracy_ne_specArgmaxAccuracy :
    specArgmaxAccuracy predEval labelsEval maskEval = 1 ∧
      evalAccuracy predEval labelsEval < 1 := by
  constructor
  · unfold specArgmaxAccuracy
    have h1 : (Finset.univ : Finset (Fin 1)).filter
        (fun v => maskEval v ≠ 0 ∧
          ∀ k, k ≠ labelsEval v →
            predEval v k < predEval v (labelsEval v)) = Finset.univ := by
      apply Finset.filter_true_of_mem
      intro v _
      refine ⟨one_ne_zero, ?_⟩
      intro k hk
      have hk0 : k ≠ 0 := by simpa [labelsEval] using hk
      fin_cases k
      · exact absurd rfl hk0
      · norm_num [predEval, labelsEval]
    have h2 : (Finset.univ : Finset (Fin 1)).filter
        (fun v => maskEval v ≠ 0) = Finset.univ := by
      apply Finset.filter_true_of_mem
      intro v _
      exact one_ne_zero
    rw [h1, h2]
    norm_num
  · have hv : evalAccuracy predEval labelsEval
        = Real.exp 100 / (Real.exp 100 + 1) := by
      unfold evalAccuracy meanVec pickLabels softmaxRows softmaxRow scaleBy100
        predEval labelsEval
      rw [Fin.sum_univ_one, Fin.sum_univ_two]
      norm_num [Real.exp_zero]
    rw [hv]
    have h1 : (0 : ℝ) < Real.exp 100 + 1 := by positivity
    rw [div_lt_one h1]
    linarith

/-- C1, amended: the reported accuracy is the mean over all nodes — the
mask plays no role — of the probability that the softmax of the
`100`-scaled logits assigns to the node's true label. -/
theorem evalAccuracy_formula {n C : ℕ} (pred : Fin n → Fin C → ℝ)
    (labels : Fin n → Fin C) :
    evalAccuracy pred labels
      = (∑ v, Real.exp (100 * pred v (labels v))
          / ∑ k, Real.exp (100 * pred v k)) / n := by
  unfold evalAccuracy meanVec pickLabels softmaxRows softmaxRow scaleBy100
  congr 1
  refine Finset.sum_congr rfl (fun v _ => ?_)
  rw [mul_comm]
  congr 1
  exact Finset.sum_congr rfl (fun k _ => by rw [mul_comm])

/-- C7: the masked cross-entropy loss vanishes at every node whose mask
entry is zero, and both the per-node loss vector and the summed loss are
unchanged when the logits and labels of unmasked nodes are replaced
arbitrarily. -/
theorem softmaxCELoss_masked {n C : ℕ} (pred pred' : Fin n → Fin C → ℝ)
    (labels labels' : Fin n → Fin C) (mask : Fin n → ℝ) :
    (∀ v, mask v = 0 → softmaxCELoss pred labels mask v = 0) ∧
    ((∀ v, mask v ≠ 0 → pred v = pred' v ∧ labels v = labels' v) →
      (∀ v, softmaxCELoss pred labels mask v
          = softmaxCELoss pred' labels' mask v) ∧
      ∑ v, softmaxCELoss pred labels mask v
          = ∑ v, softmaxCELoss pred' labels' mask v) := by
  constructor
  · intro v hv
    unfold softmaxCELoss
    rw [hv, mul_zero]
  · intro hagree
    have hpt : ∀ v, softmaxCELoss pred labels mask v
        = softmaxCELoss pred' labels' mask v := by
      intro v
      by_cases hv : mask v = 0
      · unfold softmaxCELoss
        rw [hv, mul_zero, mul_zero]
      · obtain ⟨hp, hl⟩ := hagree v hv
        unfold softmaxCELoss
        rw [hp, hl]
    exact ⟨hpt, Finset.sum_congr rfl (fun v _ => hpt v)⟩

/-- Concrete data for the masked-loss witness: one unmasked node with two
completely different prediction/label pairs. -/
noncomputable def predUnmasked : Fin 1 → Fin 2 → ℝ := fun _ _ => 0

noncomputable def predUnmasked' : Fin 1 → Fin 2 → ℝ :=
  fun _ j => if j = 0 then 5 else 2

def labelsUnmasked : Fin 1 → Fin 2 := fun _ => 0

def labelsUnmasked' : Fin 1 → Fin 2 := fun _ => 1

noncomputable def maskAllZero : Fin 1 → ℝ := fun _ => 0

/-- C7, witness: with an all-zero mask, the loss at node `0` is `0`, and
replacing the logits and the label of the unmasked node leaves the summed
loss unchanged. -/
theorem softmaxCELoss_masked_witness :
    softmaxCELoss predUnmasked labelsUnmasked maskAllZero 0 = 0 ∧
      ∑ v, softmaxCELoss predUnmasked labelsUnmasked maskAllZero v
        = ∑ v, softmaxCELoss predUnmasked' labelsUnmasked' maskAllZero v :=
  ⟨(softmaxCELoss_masked predUnmasked predUnmasked' labelsUnmasked
      labelsUnmasked' maskAllZero).1 0 rfl,
    ((softmaxCELoss_masked predUnmasked predUnmasked' labelsUnmasked
      labelsUnmasked' maskAllZero).2 (fun v hv => (hv rfl).elim)).2⟩

/-- C8: for every prediction matrix and label vector the reported final
accuracy lies in `[0, 1]` — it is a mean of per-node softmax
probabilities, each of which lies in `[0, 1]`. -/
theorem evalAccuracy_mem_unitInterval {n C : ℕ} (pred : Fin n → Fin C → ℝ)
    (labels : Fin n → Fin C) :
    0 ≤ evalAccuracy pred labels ∧ evalAccuracy pred labels ≤ 1 := by
  unfold evalAccuracy meanVec pickLabels softmaxRows
  constructor
  · apply div_nonneg
    · apply Finset.sum_nonneg
      intro v _
      exact (softmaxRow_nonneg_le_one _ _).1
    · positivity
  · rcases Nat.eq_zero_or_pos n with hn | hn
    · subst hn
      simp
    · rw [div_le_one (by exact_mod_cast hn)]
      calc ∑ v, softmaxRow (scaleBy100 pred v) (labels v)
          ≤ ∑ _v : Fin n, (1 : ℝ) :=
            Finset.sum_le_sum (fun v _ => (softmaxRow_nonneg_le_one _ _).2)
        _ = n := by simp

end GCNSpmv
